import Mathlib

/-!
# Verification of the WebGPU matrix-multiplication core

Shallow embedding of `src/app/page.tsx` (a WebGPU dense matrix multiplier).
Floating-point values are modelled by exact rationals: the kernel's arithmetic
structure (indexing, accumulation order, bounds checks, marshalling) is taken
verbatim from the source, while `f32` rounding is idealized as exact arithmetic,
so "equal within single-precision tolerance" statements are proved as exact
equalities (error 0).
-/

namespace WebGPUMatmul

/-- `const MATRIX_SIZE = 4` — the configured matrix dimension. -/
def MATRIX_SIZE : Nat := 4

/-- A host-side matrix: `number[][]`, values modelled as exact rationals. -/
abbrev Matrix2D := List (List ℚ)

/-- `flatten` from `multiplyMatrices`: `new Float32Array(matrix.flat())`.
Row-major linearization; the float-to-float store is modelled as the identity
on values. -/
def flatten (m : Matrix2D) : List ℚ := m.flatten

/-- Reading element `k` of a storage buffer holding the flat data
(`matrixA.numbers[aIndex]` in the WGSL kernel); all reads performed by the
kernel are in bounds, out-of-range reads default to 0. -/
def bufRead (l : List ℚ) (k : Nat) : ℚ := l.getD k 0

/-- The dot-product loop of the WGSL kernel `main`:
`for (i = 0; i < MATRIX_SIZE; i++) sum = sum + A[y*N + i] * B[i*N + x]`,
accumulating left to right with `i` increasing. -/
def kernelSum (N : Nat) (a b : List ℚ) (x y : Nat) : ℚ :=
  (List.range N).foldl (fun sum i => sum + bufRead a (y * N + i) * bufRead b (i * N + x)) 0

/-- One work item of the WGSL kernel `main` at global invocation id `(x, y)`:
the bounds check `if (id.x >= MATRIX_SIZE || id.y >= MATRIX_SIZE) return;`
followed by the single write `matrixOut.numbers[y*N + x] = sum`.
`none` means the item early-exits and performs no write;
`some (k, v)` means it writes value `v` to flat output index `k`. -/
def kernelWrite (N : Nat) (a b : List ℚ) (x y : Nat) : Option (Nat × ℚ) :=
  if N ≤ x ∨ N ≤ y then none
  else some (y * N + x, kernelSum N a b x y)

/-- Apply one work item's effect to the output buffer. -/
def applyItem (N : Nat) (a b : List ℚ) (out : List ℚ) (it : Nat × Nat) : List ℚ :=
  match kernelWrite N a b it.1 it.2 with
  | none => out
  | some (k, v) => out.set k v

/-- All global invocation ids launched by `dispatchWorkgroups(gx, gy)` with
`@workgroup_size(8, 8)`: ids `(x, y)` with `x < 8*gx`, `y < 8*gy`, in a
canonical enumeration order (the actual GPU order is arbitrary; see the
determinism theorem). -/
def gridItems (gx gy : Nat) : List (Nat × Nat) :=
  (List.range (8 * gx)).flatMap fun x => (List.range (8 * gy)).map fun y => (x, y)

/-- Execute the dispatched kernel: the output storage buffer starts
zero-initialized (WebGPU buffers are created zeroed), and the launched work
items execute in the given order. -/
def runKernel (N : Nat) (a b : List ℚ) (order : List (Nat × Nat)) : List ℚ :=
  order.foldl (applyItem N a b) (List.replicate (N * N) 0)

/-- `passEncoder.dispatchWorkgroups(1, 1)` — the group counts are hardcoded to
`(1, 1)` in the source and do not depend on the configured dimension, which is
why this is a constant function of it. -/
def dispatchGroups (_n : Nat) : Nat × Nat := (1, 1)

/-- The dispatch extent the spec prescribes: `groups = ceil(N/8)` per dimension. -/
def specGroups (n : Nat) : Nat × Nat := ((n + 7) / 8, (n + 7) / 8)

/-- The flat output buffer produced by the program's dispatch as configured. -/
def gpuOutput (a b : List ℚ) : List ℚ :=
  runKernel MATRIX_SIZE a b
    (gridItems (dispatchGroups MATRIX_SIZE).1 (dispatchGroups MATRIX_SIZE).2)

/-- The reconstruction loop of `multiplyMatrices`:
`for (i = 0; i < MATRIX_SIZE; i++) push(resultData.slice(i*N, i*N + N))`. -/
def reconstruct (flat : List ℚ) (n : Nat) : Matrix2D :=
  (List.range n).map fun i => (flat.drop (i * n)).take n

/-- The compute path of `multiplyMatrices`: flatten both inputs, run the
dispatched kernel, reconstruct the 2D result. -/
def multiply (A B : Matrix2D) : Matrix2D :=
  reconstruct (gpuOutput (flatten A) (flatten B)) MATRIX_SIZE

/-- Cell access `m[r][c]`, 0-defaulted out of range. -/
def cellOf (m : Matrix2D) (r c : Nat) : ℚ := (m.getD r []).getD c 0

/-- `m` is a well-formed n×n matrix: n rows, each of exactly n elements. -/
def isWF (n : Nat) (m : Matrix2D) : Prop :=
  m.length = n ∧ ∀ row ∈ m, row.length = n

instance (n : Nat) (m : Matrix2D) : Decidable (isWF n m) := by
  unfold isWF; exact inferInstance

/-! ## Codec lemmas -/

theorem reconstruct_flatten_aux (m : Matrix2D) (n : Nat) (h : ∀ row ∈ m, row.length = n) :
    (List.range m.length).map (fun i => ((m.flatten.drop (i * n)).take n)) = m := by
  induction m with
  | nil => simp
  | cons r rs ih =>
    have hr : r.length = n := h r (by simp)
    have hrest : ∀ row ∈ rs, row.length = n := fun row hrow => h row (by simp [hrow])
    rw [List.length_cons, List.range_succ_eq_map]
    simp only [List.map_cons, List.map_map]
    congr 1
    · rw [List.flatten_cons, Nat.zero_mul, List.drop_zero, ← hr, List.take_left]
    · have hmap : List.map ((fun i => List.take n (List.drop (i * n) (r :: rs).flatten)) ∘ Nat.succ)
          (List.range rs.length)
          = List.map (fun i => List.take n (List.drop (i * n) rs.flatten)) (List.range rs.length) := by
        apply List.map_congr_left
        intro i _
        simp only [Function.comp_apply, List.flatten_cons]
        rw [Nat.succ_mul, Nat.add_comm, ← List.drop_drop, ← hr, List.drop_left]
      rw [hmap, ih hrest]

/-- C2 core: reconstructing the flattened matrix recovers it exactly. -/
theorem reconstruct_flatten (m : Matrix2D) (n : Nat) (h : isWF n m) :
    reconstruct (flatten m) n = m := by
  obtain ⟨hlen, hrows⟩ := h
  rw [reconstruct, flatten]
  subst hlen
  exact reconstruct_flatten_aux m _ hrows

/-! ## Kernel write characterization -/

/-- Work item with global id `it` writes flat output index `k`. -/
def writesAt (N : Nat) (it : Nat × Nat) (k : Nat) : Prop :=
  it.1 < N ∧ it.2 < N ∧ it.2 * N + it.1 = k

instance (N : Nat) (it : Nat × Nat) (k : Nat) : Decidable (writesAt N it k) := by
  unfold writesAt; exact inferInstance

theorem kernelWrite_eq_none (N : Nat) (a b : List ℚ) (x y : Nat) (h : N ≤ x ∨ N ≤ y) :
    kernelWrite N a b x y = none := by
  rw [kernelWrite, if_pos h]

theorem kernelWrite_eq_some (N : Nat) (a b : List ℚ) (x y : Nat) (hx : x < N) (hy : y < N) :
    kernelWrite N a b x y = some (y * N + x, kernelSum N a b x y) := by
  rw [kernelWrite, if_neg (by omega)]

theorem writeIndex_lt (N x y : Nat) (hx : x < N) (hy : y < N) : y * N + x < N * N :=
  calc y * N + x < y * N + N := by omega
  _ = (y + 1) * N := by ring
  _ ≤ N * N := Nat.mul_le_mul_right N hy

theorem writesAt_coords (N : Nat) (it : Nat × Nat) (k : Nat) (h : writesAt N it k) :
    it.1 = k % N ∧ it.2 = k / N := by
  obtain ⟨h1, h2, h3⟩ := h
  subst h3
  refine ⟨?_, ?_⟩
  · rw [Nat.mul_comm it.2 N, Nat.mul_add_mod]
    exact (Nat.mod_eq_of_lt h1).symm
  · rw [Nat.mul_comm, Nat.mul_add_div (by omega), Nat.div_eq_of_lt h1, Nat.add_zero]

theorem applyItem_of_none (N : Nat) (a b out : List ℚ) (it : Nat × Nat)
    (h : kernelWrite N a b it.1 it.2 = none) : applyItem N a b out it = out := by
  unfold applyItem; rw [h]

theorem applyItem_of_some (N : Nat) (a b out : List ℚ) (it : Nat × Nat) (k : Nat) (v : ℚ)
    (h : kernelWrite N a b it.1 it.2 = some (k, v)) : applyItem N a b out it = out.set k v := by
  unfold applyItem; rw [h]

theorem applyItem_length (N : Nat) (a b out : List ℚ) (it : Nat × Nat) :
    (applyItem N a b out it).length = out.length := by
  unfold applyItem
  split <;> simp

theorem foldl_applyItem_length (N : Nat) (a b : List ℚ) (order : List (Nat × Nat))
    (out : List ℚ) : (order.foldl (applyItem N a b) out).length = out.length := by
  induction order generalizing out with
  | nil => rfl
  | cons p rest ih => rw [List.foldl_cons, ih, applyItem_length]

theorem applyItem_getD (N : Nat) (a b out : List ℚ) (it : Nat × Nat) (k : Nat)
    (hlen : out.length = N * N) (hk : k < N * N) :
    (applyItem N a b out it).getD k 0 =
      if writesAt N it k then kernelSum N a b (k % N) (k / N) else out.getD k 0 := by
  by_cases hx : it.1 < N
  · by_cases hy : it.2 < N
    · rw [applyItem_of_some N a b out it _ _ (kernelWrite_eq_some N a b it.1 it.2 hx hy)]
      by_cases hw : it.2 * N + it.1 = k
      · have hcoords := writesAt_coords N it k ⟨hx, hy, hw⟩
        rw [if_pos ⟨hx, hy, hw⟩, ← hcoords.1, ← hcoords.2, hw,
          List.getD_eq_getElem?_getD, List.getElem?_set_self (by omega), Option.getD_some]
      · rw [if_neg (fun hcon => hw hcon.2.2), List.getD_eq_getElem?_getD,
          List.getElem?_set_ne hw, ← List.getD_eq_getElem?_getD]
    · rw [applyItem_of_none N a b out it
        (kernelWrite_eq_none N a b it.1 it.2 (Or.inr (Nat.le_of_not_lt hy))),
        if_neg (fun hcon => hy hcon.2.1)]
  · rw [applyItem_of_none N a b out it
      (kernelWrite_eq_none N a b it.1 it.2 (Or.inl (Nat.le_of_not_lt hx))),
      if_neg (fun hcon => hx hcon.1)]

theorem foldl_applyItem_getD (N : Nat) (a b : List ℚ) (order : List (Nat × Nat))
    (out : List ℚ) (k : Nat) (hlen : out.length = N * N) (hk : k < N * N) :
    (order.foldl (applyItem N a b) out).getD k 0 =
      if ∃ it ∈ order, writesAt N it k then kernelSum N a b (k % N) (k / N)
      else out.getD k 0 := by
  induction order generalizing out with
  | nil => simp
  | cons p rest ih =>
    rw [List.foldl_cons, ih _ (by rw [applyItem_length]; exact hlen)]
    have hiff : (∃ it ∈ p :: rest, writesAt N it k) ↔
        writesAt N p k ∨ ∃ it ∈ rest, writesAt N it k := by
      constructor
      · rintro ⟨it, hit, hw⟩
        rcases List.mem_cons.mp hit with h | h
        · exact Or.inl (h ▸ hw)
        · exact Or.inr ⟨it, h, hw⟩
      · rintro (h | ⟨it, hit, hw⟩)
        · exact ⟨p, List.mem_cons_self p rest, h⟩
        · exact ⟨it, List.mem_cons_of_mem _ hit, hw⟩
    by_cases hrest : ∃ it ∈ rest, writesAt N it k
    · rw [if_pos hrest, if_pos (hiff.mpr (Or.inr hrest))]
    · rw [if_neg hrest, applyItem_getD N a b out p k hlen hk]
      by_cases hp : writesAt N p k
      · rw [if_pos hp, if_pos (hiff.mpr (Or.inl hp))]
      · rw [if_neg hp, if_neg (fun hc => (hiff.mp hc).elim hp hrest)]

theorem runKernel_length (N : Nat) (a b : List ℚ) (order : List (Nat × Nat)) :
    (runKernel N a b order).length = N * N := by
  rw [runKernel, foldl_applyItem_length, List.length_replicate]

theorem runKernel_getD (N : Nat) (a b : List ℚ) (order : List (Nat × Nat)) (k : Nat)
    (hk : k < N * N) :
    (runKernel N a b order).getD k 0 =
      if ∃ it ∈ order, writesAt N it k then kernelSum N a b (k % N) (k / N) else 0 := by
  rw [runKernel, foldl_applyItem_getD N a b order _ k (List.length_replicate _ _) hk]
  congr 1
  simp [List.getD_eq_getElem?_getD, List.getElem?_replicate, hk]

/-! ## From the accumulation loop to the textbook sum -/

theorem foldl_add_eq_sum (f : Nat → ℚ) (n : Nat) :
    (List.range n).foldl (fun s i => s + f i) 0 = ∑ i ∈ Finset.range n, f i := by
  induction n with
  | zero => simp
  | succ m ih => rw [List.range_succ, List.foldl_append, ih, Finset.sum_range_succ]; simp

theorem kernelSum_eq_sum (N : Nat) (a b : List ℚ) (x y : Nat) :
    kernelSum N a b x y
      = ∑ i ∈ Finset.range N, bufRead a (y * N + i) * bufRead b (i * N + x) :=
  foldl_add_eq_sum (fun i => bufRead a (y * N + i) * bufRead b (i * N + x)) N

/-! ## Flat-buffer indexing -/

theorem flatten_getD (m : Matrix2D) (n r c : Nat) (hrows : ∀ row ∈ m, row.length = n)
    (hr : r < m.length) (hc : c < n) :
    m.flatten.getD (r * n + c) 0 = (m.getD r []).getD c 0 := by
  induction m generalizing r with
  | nil => simp at hr
  | cons row rs ih =>
    have hrow : row.length = n := hrows row (List.mem_cons_self row rs)
    have hrest : ∀ q ∈ rs, q.length = n := fun q hq => hrows q (List.mem_cons_of_mem _ hq)
    cases r with
    | zero =>
      rw [Nat.zero_mul, Nat.zero_add, List.flatten_cons, List.getD_cons_zero,
        List.getD_eq_getElem?_getD, List.getElem?_append_left (by omega),
        ← List.getD_eq_getElem?_getD]
    | succ r =>
      have hr' : r < rs.length := by simpa using hr
      rw [List.flatten_cons, List.getD_cons_succ, List.getD_eq_getElem?_getD,
        List.getElem?_append_right (by rw [hrow]; rw [Nat.succ_mul]; omega)]
      have hidx : r.succ * n + c - row.length = r * n + c := by
        rw [hrow, Nat.succ_mul]; omega
      rw [hidx, ← List.getD_eq_getElem?_getD]
      exact ih r hrest hr'

theorem reconstruct_cellOf (flat : List ℚ) (n r c : Nat) (hr : r < n) (hc : c < n) :
    cellOf (reconstruct flat n) r c = flat.getD (r * n + c) 0 := by
  have hroweq : (reconstruct flat n).getD r [] = (flat.drop (r * n)).take n := by
    rw [reconstruct, List.getD_eq_getElem?_getD, List.getElem?_map, List.getElem?_range hr]
    simp
  unfold cellOf
  rw [hroweq, List.getD_eq_getElem?_getD, List.getElem?_take_of_lt hc, List.getElem?_drop,
    ← List.getD_eq_getElem?_getD]

/-! ## Shape of the result -/

theorem reconstruct_isWF (flat : List ℚ) (n : Nat) (hlen : flat.length = n * n) :
    isWF n (reconstruct flat n) := by
  refine ⟨by simp [reconstruct], ?_⟩
  intro row hrow
  simp only [reconstruct, List.mem_map, List.mem_range] at hrow
  obtain ⟨i, hi, rfl⟩ := hrow
  rw [List.length_take, List.length_drop, hlen]
  have hle : n + i * n ≤ n * n := by
    have : (i + 1) * n ≤ n * n := Nat.mul_le_mul_right n hi
    rw [Nat.succ_mul] at this
    omega
  omega

theorem multiply_isWF (A B : Matrix2D) : isWF MATRIX_SIZE (multiply A B) :=
  reconstruct_isWF _ _ (runKernel_length _ _ _ _)

/-! ## The value of each result cell -/

theorem mem_gridItems (gx gy x y : Nat) (hx : x < 8 * gx) (hy : y < 8 * gy) :
    (x, y) ∈ gridItems gx gy := by
  simp only [gridItems, List.mem_flatMap, List.mem_map, List.mem_range]
  exact ⟨x, hx, y, hy, rfl⟩

theorem multiply_entry (A B : Matrix2D) (hA : isWF MATRIX_SIZE A) (hB : isWF MATRIX_SIZE B)
    (row col : Nat) (hr : row < MATRIX_SIZE) (hc : col < MATRIX_SIZE) :
    cellOf (multiply A B) row col
      = ∑ i ∈ Finset.range MATRIX_SIZE, cellOf A row i * cellOf B i col := by
  have hk : row * MATRIX_SIZE + col < MATRIX_SIZE * MATRIX_SIZE :=
    writeIndex_lt MATRIX_SIZE col row hc hr
  have hc8 : col < 8 * (dispatchGroups MATRIX_SIZE).1 := by
    have h4 : col < 4 := hc
    show col < 8 * 1
    omega
  have hr8 : row < 8 * (dispatchGroups MATRIX_SIZE).2 := by
    have h4 : row < 4 := hr
    show row < 8 * 1
    omega
  rw [multiply, reconstruct_cellOf _ _ row col hr hc, gpuOutput,
    runKernel_getD MATRIX_SIZE _ _ _ _ hk,
    if_pos ⟨(col, row), mem_gridItems _ _ col row hc8 hr8, hc, hr, rfl⟩]
  have hmod : (row * MATRIX_SIZE + col) % MATRIX_SIZE = col := by
    rw [Nat.mul_comm row MATRIX_SIZE, Nat.mul_add_mod]
    exact Nat.mod_eq_of_lt hc
  have hdiv : (row * MATRIX_SIZE + col) / MATRIX_SIZE = row := by
    rw [Nat.mul_comm row MATRIX_SIZE, Nat.mul_add_div (by decide),
      Nat.div_eq_of_lt hc, Nat.add_zero]
  rw [hmod, hdiv, kernelSum_eq_sum]
  apply Finset.sum_congr rfl
  intro i hi
  have hi4 : i < MATRIX_SIZE := Finset.mem_range.mp hi
  rw [bufRead, bufRead, flatten, flatten,
    flatten_getD A MATRIX_SIZE row i hA.2 (by rw [hA.1]; exact hr) hi4,
    flatten_getD B MATRIX_SIZE i col hB.2 (by rw [hB.1]; exact hi4) hc]
  rfl

/-! ## Matrix extensionality and the identity matrix -/

theorem matrix_cell_ext (n : Nat) (m₁ m₂ : Matrix2D) (h₁ : isWF n m₁) (h₂ : isWF n m₂)
    (h : ∀ r < n, ∀ c < n, cellOf m₁ r c = cellOf m₂ r c) : m₁ = m₂ := by
  apply List.ext_getElem (by rw [h₁.1, h₂.1])
  intro r hr1 hr2
  apply List.ext_getElem
  · rw [h₁.2 _ (List.getElem_mem hr1), h₂.2 _ (List.getElem_mem hr2)]
  · intro c hc1 hc2
    have hrn : r < n := h₁.1 ▸ hr1
    have hcn : c < n := by
      rw [h₁.2 _ (List.getElem_mem hr1)] at hc1
      exact hc1
    have hcell := h r hrn c hcn
    rw [cellOf, cellOf, List.getD_eq_getElem m₁ [] hr1, List.getD_eq_getElem m₂ [] hr2,
      List.getD_eq_getElem (m₁[r]) 0 hc1, List.getD_eq_getElem (m₂[r]) 0 hc2] at hcell
    exact hcell

/-- The identity matrix as the UI builds it for matrix A
(`createDefaultMatrix().map((row, i) => row.map((_, j) => (i === j ? 1 : 0)))`). -/
def identityMatrix (n : Nat) : Matrix2D :=
  (List.range n).map fun i => (List.range n).map fun j => if i = j then 1 else 0

theorem identityMatrix_isWF (n : Nat) : isWF n (identityMatrix n) := by
  refine ⟨by simp [identityMatrix], ?_⟩
  intro row hrow
  simp only [identityMatrix, List.mem_map, List.mem_range] at hrow
  obtain ⟨i, _, rfl⟩ := hrow
  simp

theorem identityMatrix_cellOf (n r c : Nat) (hr : r < n) (hc : c < n) :
    cellOf (identityMatrix n) r c = if r = c then 1 else 0 := by
  have hroweq : (identityMatrix n).getD r []
      = (List.range n).map fun j => if r = j then (1 : ℚ) else 0 := by
    rw [identityMatrix, List.getD_eq_getElem?_getD, List.getElem?_map,
      List.getElem?_range hr]
    simp
  rw [cellOf, hroweq, List.getD_eq_getElem?_getD, List.getElem?_map,
    List.getElem?_range hc]
  simp

/-! ## Schedule independence of the dispatch -/

theorem kernelWrite_some_inv (N : Nat) (a b : List ℚ) (x y k : Nat) (v : ℚ)
    (h : kernelWrite N a b x y = some (k, v)) :
    x < N ∧ y < N ∧ k = y * N + x ∧ v = kernelSum N a b x y := by
  by_cases hb : N ≤ x ∨ N ≤ y
  · rw [kernelWrite_eq_none N a b x y hb] at h
    exact absurd h (by simp)
  · push_neg at hb
    rw [kernelWrite_eq_some N a b x y hb.1 hb.2] at h
    have h' := Option.some.inj h
    obtain ⟨h1, h2⟩ := Prod.mk.injEq .. ▸ h'
    exact ⟨hb.1, hb.2, h1.symm, h2.symm⟩

theorem applyItem_comm (N : Nat) (a b out : List ℚ) (p q : Nat × Nat) :
    applyItem N a b (applyItem N a b out p) q
      = applyItem N a b (applyItem N a b out q) p := by
  rcases hp : kernelWrite N a b p.1 p.2 with _ | ⟨kp, vp⟩
  · rw [applyItem_of_none N a b out p hp,
      applyItem_of_none N a b (applyItem N a b out q) p hp]
  · rcases hq : kernelWrite N a b q.1 q.2 with _ | ⟨kq, vq⟩
    · rw [applyItem_of_none N a b out q hq,
        applyItem_of_none N a b (applyItem N a b out p) q hq]
    · rw [applyItem_of_some N a b out p kp vp hp, applyItem_of_some N a b _ q kq vq hq,
        applyItem_of_some N a b out q kq vq hq, applyItem_of_some N a b _ p kp vp hp]
      by_cases hk : kp = kq
      · subst hk
        obtain ⟨hpx, hpy, hpk, hpv⟩ := kernelWrite_some_inv N a b p.1 p.2 kp vp hp
        obtain ⟨hqx, hqy, hqk, hqv⟩ := kernelWrite_some_inv N a b q.1 q.2 kp vq hq
        have hpc := writesAt_coords N p kp ⟨hpx, hpy, hpk.symm⟩
        have hqc := writesAt_coords N q kp ⟨hqx, hqy, hqk.symm⟩
        have hveq : vp = vq := by
          rw [hpv, hqv, hpc.1, hpc.2, hqc.1, hqc.2]
        rw [hveq]
      · exact List.set_comm vp vq out hk

theorem runKernel_perm (N : Nat) (a b : List ℚ) (o₁ o₂ : List (Nat × Nat))
    (h : o₁.Perm o₂) : runKernel N a b o₁ = runKernel N a b o₂ := by
  unfold runKernel
  exact h.foldl_eq' (fun x _ y _ z => applyItem_comm N a b z x y) _

/-! ## The orchestrator `multiplyMatrices`

The asynchronous environment (WebGPU availability, adapter discovery, the two
awaited promises, and the possibility of a failure in the state update after
readback) is modelled by an `Env` record; `some msg` in a failure slot means
the corresponding step throws/rejects with message `msg`.  Steps the WebGPU
API cannot fail (`getMappedRange` on a buffer whose `mapAsync` resolved, the
small `ArrayBuffer.slice`) are modelled as infallible. -/

structure Env where
  gpuAvailable : Bool
  adapterAvailable : Bool
  deviceFail : Option String
  setupFail : Option String
  mapFail : Option String
  postFail : Option String

/-- The React component's state touched by `multiplyMatrices`. -/
structure UIState where
  matrixA : Matrix2D
  matrixB : Matrix2D
  resultMatrix : Option Matrix2D
  error : Option String
  loading : Bool

/-- Resource events of one `multiplyMatrices` run, traced in program order. -/
inductive Event where
  | mapGranted
  | bytesCopied
  | unmap
  | failed (msg : String)
  | completed
deriving DecidableEq

/-- One run of `multiplyMatrices`: returns the final component state and the
trace of readback/resource events, following the source's control flow:
`setError(null); setLoading(true); try { ... } catch { setError(e.message) }
setLoading(false)`.  The `catch` performs no unmap; `readBuffer.unmap()` is the
statement directly after the byte copy out of the mapped range. -/
def multiplyRun (env : Env) (st : UIState) : UIState × List Event :=
  let st0 : UIState := { st with error := none, loading := true }
  let fail := fun (msg : String) (evs : List Event) =>
    ({ st0 with error := some msg, loading := false }, evs ++ [Event.failed msg])
  if env.gpuAvailable = false then
    fail "WebGPU is not supported on this browser." []
  else if env.adapterAvailable = false then
    fail "Failed to get GPU adapter." []
  else
    match env.deviceFail with
    | some msg => fail msg []
    | none =>
      match env.setupFail with
      | some msg => fail msg []
      | none =>
        match env.mapFail with
        | some msg => fail msg []
        | none =>
          let resultData := gpuOutput (flatten st.matrixA) (flatten st.matrixB)
          let evs := [Event.mapGranted, Event.bytesCopied, Event.unmap]
          match env.postFail with
          | some msg => fail msg evs
          | none =>
            ({ st0 with
                resultMatrix := some (reconstruct resultData MATRIX_SIZE),
                loading := false },
              evs ++ [Event.completed])

/-- Whether the staging buffer is left mapped after a trace of events. -/
def mappedAfter (evs : List Event) : Bool :=
  evs.foldl
    (fun m e =>
      match e with
      | Event.mapGranted => true
      | Event.unmap => false
      | _ => m)
    false

/-! ## The cell editor `updateMatrix` -/

/-- `updateMatrix` from the page component: copies the outer array, copies row
`row`, then assigns `matrix[row][col] = isNaN(num) ? 0 : num` on the copies.
`parsed` is the result of `parseFloat(value)`, with `none` standing for `NaN`. -/
def updateMatrix (matrix : Matrix2D) (row col : Nat) (parsed : Option ℚ) : Matrix2D :=
  matrix.set row ((matrix.getD row []).set col (parsed.getD 0))

theorem updateMatrix_cellOf (m : Matrix2D) (row col : Nat) (parsed : Option ℚ) (r c : Nat)
    (hrow : row < m.length) (hcol : col < (m.getD row []).length) :
    cellOf (updateMatrix m row col parsed) r c
      = if r = row ∧ c = col then parsed.getD 0 else cellOf m r c := by
  unfold updateMatrix cellOf
  by_cases hr : r = row
  · subst hr
    have h1 : (m.set r ((m.getD r []).set col (parsed.getD 0))).getD r []
        = (m.getD r []).set col (parsed.getD 0) := by
      rw [List.getD_eq_getElem?_getD, List.getElem?_set_self hrow, Option.getD_some]
    rw [h1]
    by_cases hcq : c = col
    · subst hcq
      rw [if_pos ⟨rfl, rfl⟩, List.getD_eq_getElem?_getD,
        List.getElem?_set_self hcol, Option.getD_some]
    · rw [if_neg (fun hcon => hcq hcon.2), List.getD_eq_getElem?_getD,
        List.getElem?_set_ne (fun hcon => hcq hcon.symm), ← List.getD_eq_getElem?_getD]
  · have h2 : (List.set m row ((m.getD row []).set col (parsed.getD 0))).getD r []
        = m.getD r [] := by
      rw [List.getD_eq_getElem?_getD, List.getElem?_set_ne (fun hcon => hr hcon.symm),
        ← List.getD_eq_getElem?_getD]
    rw [if_neg (fun hcon => hr hcon.1), h2]

/-! ## Claims -/

/-- C1: for input matrices A, B of the configured dimension, each cell
`(row, col)` of `multiply(A, B)` with `row, col < N` equals the dot product
`sum_{i=0}^{N-1} A[row][i] * B[i][col]` of the plain scalar reference.  With
floating point idealized as exact arithmetic the two agree exactly (error 0,
within any single-precision tolerance). -/
theorem claim1_multiply_is_standard_product (A B : Matrix2D)
    (hA : isWF MATRIX_SIZE A) (hB : isWF MATRIX_SIZE B)
    (row col : Nat) (hr : row < MATRIX_SIZE) (hc : col < MATRIX_SIZE) :
    cellOf (multiply A B) row col
      = ∑ i ∈ Finset.range MATRIX_SIZE, cellOf A row i * cellOf B i col :=
  multiply_entry A B hA hB row col hr hc

theorem claim1_witness :
    cellOf (multiply [[1,2,3,4],[5,6,7,8],[9,10,11,12],[13,14,15,16]]
        [[1,0,2,0],[0,1,0,2],[3,0,1,0],[0,3,0,1]]) 1 2
      = ∑ i ∈ Finset.range MATRIX_SIZE,
          cellOf [[1,2,3,4],[5,6,7,8],[9,10,11,12],[13,14,15,16]] 1 i
            * cellOf [[1,0,2,0],[0,1,0,2],[3,0,1,0],[0,3,0,1]] i 2 :=
  claim1_multiply_is_standard_product
    [[1,2,3,4],[5,6,7,8],[9,10,11,12],[13,14,15,16]]
    [[1,0,2,0],[0,1,0,2],[3,0,1,0],[0,3,0,1]]
    (by decide) (by decide) 1 2 (by decide) (by decide)

/-- C2: the host buffer codec round-trips exactly:
`reconstruct(flatten(m), N) == m` element-wise for every N×N matrix `m`. -/
theorem claim2_codec_roundtrip (m : Matrix2D) (n : Nat) (h : isWF n m) :
    reconstruct (flatten m) n = m :=
  reconstruct_flatten m n h

theorem claim2_witness :
    reconstruct (flatten [[1,2,3,4],[5,6,7,8],[9,10,11,12],[13,14,15,16]]) 4
      = [[1,2,3,4],[5,6,7,8],[9,10,11,12],[13,14,15,16]] :=
  claim2_codec_roundtrip [[1,2,3,4],[5,6,7,8],[9,10,11,12],[13,14,15,16]] 4 (by decide)

/-- C3 counterexample: the claim that the dispatch uses `ceil(N/8)` groups per
dimension for every configured dimension N is false — the source hardcodes
`dispatchWorkgroups(1, 1)` independently of the configured dimension, so at a
configured dimension of 16 it issues 1 group per dimension, not ceil(16/8) = 2. -/
theorem claim3_counterexample : ¬ dispatchGroups 16 = specGroups 16 := by
  decide

/-- C3 (amended): the dispatch issued by `multiply` uses the fixed group count
`(1, 1)`, which coincides with `ceil(N/8)` along each of the two dispatch
dimensions exactly for configured dimensions `1 ≤ N ≤ 8` — in particular for
the reference configuration N = 4 — and is not derived from N. -/
theorem claim3_amended_dispatch_groups (n : Nat) (h1 : 1 ≤ n) (h2 : n ≤ 8) :
    dispatchGroups n = specGroups n := by
  unfold dispatchGroups specGroups
  have h : (n + 7) / 8 = 1 := by omega
  rw [h]

theorem claim3_witness : dispatchGroups MATRIX_SIZE = specGroups MATRIX_SIZE :=
  claim3_amended_dispatch_groups MATRIX_SIZE (by decide) (by decide)

/-- C4: a work item whose coordinates fall outside `[0,N) x [0,N)` early-exits
without performing any write, and every write a work item does perform targets
a flat index inside the N×N output range — for every N, including dimensions
that are not a multiple of the 8×8 tile. -/
theorem claim4_bounds_safety (N : Nat) (a b : List ℚ) (x y : Nat) :
    ((N ≤ x ∨ N ≤ y) → kernelWrite N a b x y = none)
      ∧ (∀ k v, kernelWrite N a b x y = some (k, v) → x < N ∧ y < N ∧ k < N * N) := by
  constructor
  · exact kernelWrite_eq_none N a b x y
  · intro k v h
    obtain ⟨hx, hy, hk, _⟩ := kernelWrite_some_inv N a b x y k v h
    exact ⟨hx, hy, hk ▸ writeIndex_lt N x y hx hy⟩

theorem claim4_witness : kernelWrite 5 [] [] 7 2 = none ∧ 13 < 5 * 5 := by
  refine ⟨(claim4_bounds_safety 5 [] [] 7 2).1 (by decide), ?_⟩
  have h := (claim4_bounds_safety 5 [] [] 3 2).2 13 (kernelSum 5 [] [] 3 2) rfl
  exact h.2.2

/-- C5: when device acquisition fails — WebGPU missing, the adapter request
returning null, or the device request rejecting — `multiplyMatrices` reports
the corresponding failure reason and the result state is exactly what it was
before the call; no (partial) result matrix is ever produced on these paths. -/
theorem claim5_acquisition_failure (env : Env) (st : UIState) :
    (env.gpuAvailable = false →
        (multiplyRun env st).1.error = some "WebGPU is not supported on this browser."
          ∧ (multiplyRun env st).1.resultMatrix = st.resultMatrix)
      ∧ (env.gpuAvailable = true → env.adapterAvailable = false →
        (multiplyRun env st).1.error = some "Failed to get GPU adapter."
          ∧ (multiplyRun env st).1.resultMatrix = st.resultMatrix)
      ∧ (∀ msg, env.gpuAvailable = true → env.adapterAvailable = true →
          env.deviceFail = some msg →
        (multiplyRun env st).1.error = some msg
          ∧ (multiplyRun env st).1.resultMatrix = st.resultMatrix) := by
  obtain ⟨g, ad, df, sf, mf, pf⟩ := env
  refine ⟨?_, ?_, ?_⟩
  · intro hg
    subst hg
    exact ⟨rfl, rfl⟩
  · intro hg had
    subst hg
    subst had
    exact ⟨rfl, rfl⟩
  · intro msg hg had hdf
    subst hg
    subst had
    subst hdf
    exact ⟨rfl, rfl⟩

theorem claim5_witness :
    (multiplyRun ⟨false, true, none, none, none, none⟩
        ⟨[], [], none, none, false⟩).1.error
      = some "WebGPU is not supported on this browser."
      ∧ (multiplyRun ⟨false, true, none, none, none, none⟩
          ⟨[], [], none, none, false⟩).1.resultMatrix = none :=
  (claim5_acquisition_failure ⟨false, true, none, none, none, none⟩
    ⟨[], [], none, none, false⟩).1 rfl

/-- C6: on every execution path of `multiplyMatrices`, the staging buffer is
not left mapped when the call finishes — `readBuffer.unmap()` runs directly
after the byte copy out of the mapped range, so in particular on the path
where the mapping was granted and the copy succeeded but an error occurs
afterward, the buffer has already been unmapped. -/
theorem claim6_unmap_on_every_path (env : Env) (st : UIState) :
    mappedAfter (multiplyRun env st).2 = false := by
  obtain ⟨g, ad, df, sf, mf, pf⟩ := env
  cases g <;> cases ad <;> cases df <;> cases sf <;> cases mf <;> cases pf <;> rfl

/-- C7: identity laws — `multiply (I, B) = B` and `multiply (A, I) = A` for
the identity matrix of the configured dimension, each cell matching exactly. -/
theorem claim7_identity_laws (A B : Matrix2D)
    (hA : isWF MATRIX_SIZE A) (hB : isWF MATRIX_SIZE B) :
    multiply (identityMatrix MATRIX_SIZE) B = B
      ∧ multiply A (identityMatrix MATRIX_SIZE) = A := by
  constructor
  · apply matrix_cell_ext MATRIX_SIZE _ _ (multiply_isWF _ _) hB
    intro r hr c hc
    rw [multiply_entry _ B (identityMatrix_isWF _) hB r c hr hc]
    calc ∑ i ∈ Finset.range MATRIX_SIZE,
          cellOf (identityMatrix MATRIX_SIZE) r i * cellOf B i c
        = ∑ i ∈ Finset.range MATRIX_SIZE, (if r = i then cellOf B i c else 0) := by
          refine Finset.sum_congr rfl fun i hi => ?_
          rw [identityMatrix_cellOf MATRIX_SIZE r i hr (Finset.mem_range.mp hi)]
          by_cases h : r = i <;> simp [h]
      _ = cellOf B r c := by
          rw [Finset.sum_ite_eq, if_pos (Finset.mem_range.mpr hr)]
  · apply matrix_cell_ext MATRIX_SIZE _ _ (multiply_isWF _ _) hA
    intro r hr c hc
    rw [multiply_entry A _ hA (identityMatrix_isWF _) r c hr hc]
    calc ∑ i ∈ Finset.range MATRIX_SIZE,
          cellOf A r i * cellOf (identityMatrix MATRIX_SIZE) i c
        = ∑ i ∈ Finset.range MATRIX_SIZE, (if i = c then cellOf A r i else 0) := by
          refine Finset.sum_congr rfl fun i hi => ?_
          rw [identityMatrix_cellOf MATRIX_SIZE i c (Finset.mem_range.mp hi) hc]
          by_cases h : i = c <;> simp [h]
      _ = cellOf A r c := by
          rw [Finset.sum_ite_eq', if_pos (Finset.mem_range.mpr hc)]

theorem claim7_witness :
    multiply (identityMatrix MATRIX_SIZE)
        [[1,2,3,4],[5,6,7,8],[9,10,11,12],[13,14,15,16]]
      = [[1,2,3,4],[5,6,7,8],[9,10,11,12],[13,14,15,16]]
      ∧ multiply [[1,2,3,4],[5,6,7,8],[9,10,11,12],[13,14,15,16]]
          (identityMatrix MATRIX_SIZE)
        = [[1,2,3,4],[5,6,7,8],[9,10,11,12],[13,14,15,16]] :=
  claim7_identity_laws
    [[1,2,3,4],[5,6,7,8],[9,10,11,12],[13,14,15,16]]
    [[1,2,3,4],[5,6,7,8],[9,10,11,12],[13,14,15,16]]
    (by decide) (by decide)

/-- C8: `multiplyMatrices` never mutates its caller-owned input matrices —
after any run, successful or failed, the component state holds the same
`matrixA` and `matrixB` as before the call. -/
theorem claim8_inputs_not_mutated (env : Env) (st : UIState) :
    (multiplyRun env st).1.matrixA = st.matrixA
      ∧ (multiplyRun env st).1.matrixB = st.matrixB := by
  obtain ⟨g, ad, df, sf, mf, pf⟩ := env
  cases g <;> cases ad <;> cases df <;> cases sf <;> cases mf <;> cases pf <;>
    exact ⟨rfl, rfl⟩

/-- C9: the kernel is deterministic — each cell is accumulated in the fixed
left-to-right order of the source loop (`kernelSum` folds `i = 0 .. N-1`), and
the result does not depend on the order in which the GPU schedules the
dispatched work items: any execution order of the launched grid yields the
same result matrix as the canonical run, so two runs on identical inputs are
identical. -/
theorem claim9_deterministic (A B : Matrix2D) (o : List (Nat × Nat))
    (h : o.Perm (gridItems (dispatchGroups MATRIX_SIZE).1 (dispatchGroups MATRIX_SIZE).2)) :
    reconstruct (runKernel MATRIX_SIZE (flatten A) (flatten B) o) MATRIX_SIZE
      = multiply A B := by
  rw [multiply, gpuOutput, runKernel_perm MATRIX_SIZE _ _ o _ h]

theorem claim9_witness :
    reconstruct
        (runKernel MATRIX_SIZE (flatten [[1]]) (flatten [[2]])
          ((gridItems (dispatchGroups MATRIX_SIZE).1
            (dispatchGroups MATRIX_SIZE).2).reverse))
        MATRIX_SIZE
      = multiply [[1]] [[2]] :=
  claim9_deterministic [[1]] [[2]] _ (List.reverse_perm _)

/-- C10: `updateMatrix` sets cell `(row, col)` to the parsed number, or to 0
when the text does not parse (`parseFloat` returned `NaN`, modelled as
`none`); every other cell keeps its previous value and the shape is
unchanged.  The source copies the outer array and the edited row
(`[...matrix]`, `[...matrix[row]]`), which the embedding reflects by returning
a new matrix value and leaving `matrix` untouched. -/
theorem claim10_updateMatrix_cells (m : Matrix2D) (row col : Nat) (parsed : Option ℚ)
    (hrow : row < m.length) (hcol : col < (m.getD row []).length) :
    (∀ r c, cellOf (updateMatrix m row col parsed) r c
        = if r = row ∧ c = col then parsed.getD 0 else cellOf m r c)
      ∧ (updateMatrix m row col parsed).length = m.length := by
  refine ⟨fun r c => updateMatrix_cellOf m row col parsed r c hrow hcol, ?_⟩
  rw [updateMatrix, List.length_set]

theorem claim10_witness :
    cellOf (updateMatrix [[1,2],[3,4]] 0 1 none) 0 1 = 0
      ∧ cellOf (updateMatrix [[1,2],[3,4]] 0 1 none) 1 0 = 3
      ∧ (updateMatrix [[1,2],[3,4]] 0 1 none).length = 2 := by
  have h := claim10_updateMatrix_cells [[1,2],[3,4]] 0 1 none (by decide) (by decide)
  refine ⟨?_, ?_, h.2⟩
  · rw [h.1 0 1]
    simp
  · rw [h.1 1 0]
    simp
    rfl

end WebGPUMatmul
